import Mathlib

/-
Verification of the repeat combinator of fairseq2n
(src/native/src/fairseq2n/data/repeat_data_source.h).

The header declares the class `repeat_data_source` with fields
  std::unique_ptr<data_source> inner_;
  bool has_data_ = false;
  std::optional<std::size_t> num_repeats_;
  std::size_t repeat_nr_ = 0;
and an inline noexcept constructor that stores `inner` and `num_repeats`
unchanged.  The bodies of next / reset / record_position / reload_position /
is_infinite live in a translation unit that is not part of this tree, so they
are modelled from the specification (section 4 of the design document): the
state machine FRESH / IN_PASS / BETWEEN_PASSES / DONE, the tape protocol that
writes the pass counter and the has-produced flag followed by the inner
stage's state, and the strict / non-strict reload policy.

The inner stage is instantiated with a deterministic list-backed source: it
yields the elements of a fixed list in order, is reset by rewinding to the
front, and checkpoints its cursor.  This realises exactly the "inner stage
that yields a finite stream of Values per pass" that the claims quantify
over.
-/

namespace Fairseq2n

/-- One typed slot of a checkpoint tape: the tape is an ordered sequence of
typed slots, written and read in a fixed order. -/
inductive Slot where
  | nat : Nat → Slot
  | bool : Bool → Slot
deriving DecidableEq, Repr

/-- A checkpoint tape: ordered, consumed from the front on reload. -/
abbrev Tape := List Slot

/-- Checkpoint protocol failure: a missing or type-mismatched slot found by a
strict reload. -/
inductive CkptErr where
  | mismatch : CkptErr
deriving DecidableEq, Repr

/-- A deterministic list-backed inner data source: `data` is the finite
stream it yields per pass, `pos` the cursor of the current pass. -/
structure ListSource (α : Type) where
  data : List α
  pos : Nat
deriving DecidableEq, Repr

/-- `next` of the list-backed source: yield the element under the cursor and
advance, or yield nothing (leaving the cursor in place) once exhausted. -/
def ListSource.next {α : Type} (l : ListSource α) : Option α × ListSource α :=
  match l.data.get? l.pos with
  | some v => (some v, { l with pos := l.pos + 1 })
  | none => (none, l)

/-- `reset` of the list-backed source: rewind the cursor to the front. -/
def ListSource.reset {α : Type} (l : ListSource α) : ListSource α :=
  { l with pos := 0 }

/-- The list-backed source is never infinite: every pass is finite. -/
def ListSource.is_infinite {α : Type} (_ : ListSource α) : Bool :=
  false

/-- `record_position` of the list-backed source: append the cursor to the
tape; the source itself (a const method in the interface) is unchanged. -/
def ListSource.record_position {α : Type} (l : ListSource α) (t : Tape) (_strict : Bool) :
    Tape × ListSource α :=
  (t ++ [Slot.nat l.pos], l)

/-- Read one Nat slot from the front of a tape.  Modelled from the spec:
strict mode requires the slot to be present and type-correct and fails hard
otherwise; non-strict mode leaves the default value and proceeds. -/
def readNat (strict : Bool) (dflt : Nat) (t : Tape) : Except CkptErr (Nat × Tape) :=
  match t with
  | Slot.nat v :: rest => Except.ok (v, rest)
  | _ => if strict then Except.error CkptErr.mismatch else Except.ok (dflt, t)

/-- Read one Bool slot from the front of a tape, with the same strict /
non-strict policy as `readNat`. -/
def readBool (strict : Bool) (dflt : Bool) (t : Tape) : Except CkptErr (Bool × Tape) :=
  match t with
  | Slot.bool v :: rest => Except.ok (v, rest)
  | _ => if strict then Except.error CkptErr.mismatch else Except.ok (dflt, t)

/-- `reload_position` of the list-backed source: read the cursor back. -/
def ListSource.reload_position {α : Type} (l : ListSource α) (t : Tape) (strict : Bool) :
    Except CkptErr (ListSource α × Tape) :=
  match readNat strict 0 t with
  | Except.error e => Except.error e
  | Except.ok (p, rest) => Except.ok ({ l with pos := p }, rest)

/-- The repeat combinator's state, mirroring the fields declared in
repeat_data_source.h: the owned inner source, `has_data_` (false at
construction), the optional pass bound `num_repeats_`, and the pass counter
`repeat_nr_` (0 at construction). -/
structure repeat_data_source (α : Type) where
  inner_ : ListSource α
  has_data_ : Bool
  num_repeats_ : Option Nat
  repeat_nr_ : Nat
deriving DecidableEq, Repr

/-- The constructor from the header: noexcept, no validation; it stores the
inner source and the bound unchanged and uses the member initializers
`has_data_ = false` and `repeat_nr_ = 0`. -/
def mkRepeat {α : Type} (inner : ListSource α) (num_repeats : Option Nat) :
    repeat_data_source α :=
  { inner_ := inner, has_data_ := false, num_repeats_ := num_repeats, repeat_nr_ := 0 }

/-- Whether the pass that would come after pass `repeat_nr_` lies beyond the
configured bound: true when `num_repeats_` is present and
`repeat_nr_ + 1 >= num_repeats_`; an absent bound is never reached. -/
def boundReached (num_repeats_ : Option Nat) (repeat_nr_ : Nat) : Bool :=
  match num_repeats_ with
  | some k => decide (k ≤ repeat_nr_ + 1)
  | none => false

/-- Modelled from the spec: `repeat_data_source::next` (its body is not in
this tree).  Delegate to the inner source; on a value, propagate it and set
`has_data_`.  On inner exhaustion: if nothing was ever produced the
combinator is permanently exhausted (degenerate empty source, never
retried); if the bound is reached it is permanently exhausted; otherwise
increment the pass counter, reset the inner source and continue with the new
pass.  For the deterministic list-backed inner source a freshly reset pass
yields a value again whenever a previous pass did, so the continuation needs
a single retry; the final arm below is reachable only from states no
construction can produce (has_data_ set while the inner list is empty). -/
def repeat_data_source.next {α : Type} (s : repeat_data_source α) :
    Option α × repeat_data_source α :=
  match s.inner_.next with
  | (some v, i1) => (some v, { s with inner_ := i1, has_data_ := true })
  | (none, i1) =>
    if s.has_data_ = false then
      (none, { s with inner_ := i1 })
    else if boundReached s.num_repeats_ s.repeat_nr_ then
      (none, { s with inner_ := i1 })
    else
      match (i1.reset).next with
      | (some v, i2) =>
        (some v, { s with inner_ := i2, has_data_ := true, repeat_nr_ := s.repeat_nr_ + 1 })
      | (none, i2) =>
        (none, { s with inner_ := i2, repeat_nr_ := s.repeat_nr_ + 1 })

/-- Modelled from the spec: `repeat_data_source::reset` restores the state
the combinator had immediately after construction: the pass counter returns
to 0, `has_data_` to false, and the inner source is reset. -/
def repeat_data_source.reset {α : Type} (s : repeat_data_source α) : repeat_data_source α :=
  { s with inner_ := s.inner_.reset, has_data_ := false, repeat_nr_ := 0 }

/-- Modelled from the spec: `repeat_data_source::record_position` (declared
const in the header) appends the pass counter and the has-produced flag to
the tape and then delegates to the inner source's `record_position`. -/
def repeat_data_source.record_position {α : Type} (s : repeat_data_source α) (t : Tape)
    (strict : Bool) : Tape × repeat_data_source α :=
  match s.inner_.record_position (t ++ [Slot.nat s.repeat_nr_, Slot.bool s.has_data_]) strict with
  | (t1, i1) => (t1, { s with inner_ := i1 })

/-- Modelled from the spec: `repeat_data_source::reload_position` reads back,
in record order, the pass counter, the has-produced flag, and then the inner
source's state; strict mode fails hard on a missing or type-mismatched slot,
non-strict mode falls back to the freshly constructed defaults. -/
def repeat_data_source.reload_position {α : Type} (s : repeat_data_source α) (t : Tape)
    (strict : Bool) : Except CkptErr (repeat_data_source α × Tape) :=
  match readNat strict 0 t with
  | Except.error e => Except.error e
  | Except.ok (nr, t1) =>
    match readBool strict false t1 with
    | Except.error e => Except.error e
    | Except.ok (hd, t2) =>
      match s.inner_.reload_position t2 strict with
      | Except.error e => Except.error e
      | Except.ok (i1, t3) =>
        Except.ok ({ s with repeat_nr_ := nr, has_data_ := hd, inner_ := i1 }, t3)

/-- Modelled from the spec: the combinator's infiniteness as a function of
its bound and of what the inner stage reports — infinite whenever no bound
is set, and exactly the inner stage's infiniteness when a bound is set. -/
def repeat_is_infinite (num_repeats_ : Option Nat) (inner_is_infinite : Bool) : Bool :=
  match num_repeats_ with
  | none => true
  | some _ => inner_is_infinite

/-- `repeat_data_source::is_infinite` instantiated at the list-backed inner
source, which is never infinite. -/
def repeat_data_source.is_infinite {α : Type} (s : repeat_data_source α) : Bool :=
  repeat_is_infinite s.num_repeats_ s.inner_.is_infinite

/-- Drive the combinator for `m` calls of `next`, collecting the `m`
results in order together with the final state. -/
def repeat_data_source.run {α : Type} (s : repeat_data_source α) :
    Nat → List (Option α) × repeat_data_source α
  | 0 => ([], s)
  | m + 1 => ((s.next).1 :: (((s.next).2).run m).1, (((s.next).2).run m).2)

/-- A permanently exhausted (DONE) state: the inner source is exhausted and
either nothing was ever produced (degenerate empty source) or the configured
bound is reached. -/
def repeat_data_source.isDone {α : Type} (s : repeat_data_source α) : Bool :=
  ((s.inner_.next).1).isNone && (!s.has_data_ || boundReached s.num_repeats_ s.repeat_nr_)

/-- Shape check for a tape as recorded by the repeat combinator over the
list-backed inner source: pass counter, has-produced flag, inner cursor. -/
def tapeWellFormed : Tape → Bool
  | Slot.nat _ :: Slot.bool _ :: Slot.nat _ :: _ => true
  | _ => false

/-- The states reachable from construction with inner list `l` and bound
`nrep` by any sequence of `next`, `reset`, `record_position` and
`reload_position` calls, where reloads are fed tapes recorded from reachable
states of the same configuration. -/
inductive Reachable {α : Type} (l : List α) (nrep : Option Nat) :
    repeat_data_source α → Prop where
  | init : Reachable l nrep (mkRepeat (ListSource.mk l 0) nrep)
  | step_next {s : repeat_data_source α} :
      Reachable l nrep s → Reachable l nrep (s.next).2
  | step_reset {s : repeat_data_source α} :
      Reachable l nrep s → Reachable l nrep s.reset
  | step_record {s : repeat_data_source α} {strict : Bool} :
      Reachable l nrep s → Reachable l nrep ((s.record_position [] strict).2)
  | step_reload {s t s2 : repeat_data_source α} {rest : Tape} {strict strict2 : Bool} :
      Reachable l nrep s → Reachable l nrep t →
      t.reload_position ((s.record_position [] strict).1) strict2 = Except.ok (s2, rest) →
      Reachable l nrep s2

/-! Helper lemmas about the list-backed inner source and single steps of the
repeat combinator. -/

theorem ListSource.next_of_lt {α : Type} (l : List α) (p : Nat) (h : p < l.length) :
    (ListSource.mk l p).next = (some (l.get ⟨p, h⟩), ListSource.mk l (p + 1)) := by
  simp [ListSource.next, List.getElem?_eq_getElem h]

theorem ListSource.next_of_le {α : Type} (l : List α) (p : Nat) (h : l.length ≤ p) :
    (ListSource.mk l p).next = (none, ListSource.mk l p) := by
  simp [ListSource.next, List.getElem?_eq_none h]

theorem repeat_data_source.next_in_pass {α : Type} (l : List α) (p : Nat) (hd : Bool)
    (k : Option Nat) (q : Nat) (h : p < l.length) :
    (repeat_data_source.mk (ListSource.mk l p) hd k q).next
      = (some (l.get ⟨p, h⟩), repeat_data_source.mk (ListSource.mk l (p + 1)) true k q) := by
  simp [repeat_data_source.next, ListSource.next_of_lt l p h]

theorem repeat_data_source.next_no_data {α : Type} (l : List α) (p : Nat) (k : Option Nat)
    (q : Nat) (hp : l.length ≤ p) :
    (repeat_data_source.mk (ListSource.mk l p) false k q).next
      = (none, repeat_data_source.mk (ListSource.mk l p) false k q) := by
  simp [repeat_data_source.next, ListSource.next_of_le l p hp]

theorem repeat_data_source.next_done_bound {α : Type} (l : List α) (p q kk : Nat)
    (hp : l.length ≤ p) (hq : kk ≤ q + 1) :
    (repeat_data_source.mk (ListSource.mk l p) true (some kk) q).next
      = (none, repeat_data_source.mk (ListSource.mk l p) true (some kk) q) := by
  have hb : boundReached (some kk) q = true := by simp [boundReached, hq]
  simp [repeat_data_source.next, ListSource.next_of_le l p hp, hb]

theorem repeat_data_source.next_new_pass {α : Type} (a : α) (t : List α) (p q kk : Nat)
    (hp : t.length + 1 ≤ p) (hq : q + 1 < kk) :
    (repeat_data_source.mk (ListSource.mk (a :: t) p) true (some kk) q).next
      = (some a, repeat_data_source.mk (ListSource.mk (a :: t) 1) true (some kk) (q + 1)) := by
  have hb : boundReached (some kk) q = false := by
    simp only [boundReached, decide_eq_false_iff_not]
    omega
  have hle : (a :: t).length ≤ p := by
    simp only [List.length_cons]
    omega
  simp [repeat_data_source.next, ListSource.next, ListSource.reset,
    List.getElem?_eq_none hle, hb]

theorem repeat_data_source.run_add {α : Type} (a b : Nat) (s : repeat_data_source α) :
    s.run (a + b)
      = ((s.run a).1 ++ (((s.run a).2).run b).1, (((s.run a).2).run b).2) := by
  induction a generalizing s with
  | zero => simp [repeat_data_source.run]
  | succ a ih =>
    have h : a + 1 + b = (a + b) + 1 := by omega
    rw [h]
    simp [repeat_data_source.run, ih]

theorem repeat_data_source.run_of_fixpoint {α : Type} (s : repeat_data_source α)
    (h : s.next = (none, s)) (m : Nat) :
    s.run m = (List.replicate m none, s) := by
  induction m with
  | zero => simp [repeat_data_source.run]
  | succ m ih => simp [repeat_data_source.run, h, ih, List.replicate_succ]

theorem repeat_data_source.run_in_pass {α : Type} (l : List α) (k : Option Nat) (q : Nat) :
    ∀ d p, p + d = l.length →
    (repeat_data_source.mk (ListSource.mk l p) true k q).run d
      = ((l.drop p).map some,
         repeat_data_source.mk (ListSource.mk l l.length) true k q) := by
  intro d
  induction d with
  | zero =>
    intro p hp
    have hp' : p = l.length := by omega
    subst hp'
    simp [repeat_data_source.run, List.drop_length]
  | succ d ih =>
    intro p hp
    have hlt : p < l.length := by omega
    simp only [repeat_data_source.run, repeat_data_source.next_in_pass l p true k q hlt]
    rw [ih (p + 1) (by omega)]
    have hdrop : l.drop p = l[p] :: l.drop (p + 1) := List.drop_eq_getElem_cons hlt
    rw [hdrop, List.map_cons, List.get_eq_getElem]

theorem repeat_data_source.run_full_pass {α : Type} (l : List α) (q kk : Nat)
    (h0 : 0 < l.length) (hq : q + 1 < kk) :
    (repeat_data_source.mk (ListSource.mk l l.length) true (some kk) q).run l.length
      = (l.map some,
         repeat_data_source.mk (ListSource.mk l l.length) true (some kk) (q + 1)) := by
  obtain ⟨a, t, rfl⟩ : ∃ a t, l = a :: t := by
    cases l with
    | nil => simp at h0
    | cons a t => exact ⟨a, t, rfl⟩
  have hlen : (a :: t).length = t.length + 1 := List.length_cons a t
  rw [hlen]
  have hstep := repeat_data_source.next_new_pass a t (t.length + 1) q kk (le_refl _) hq
  have hrest := repeat_data_source.run_in_pass (a :: t) (some kk) (q + 1) t.length 1
    (by simp [Nat.add_comm])
  rw [hlen] at hrest
  simp [repeat_data_source.run, hstep, hrest]

theorem repeat_data_source.run_passes {α : Type} (l : List α) (kk j : Nat) (h0 : 0 < l.length) :
    ∀ r q, q + 1 + r = kk →
    (repeat_data_source.mk (ListSource.mk l l.length) true (some kk) q).run
        (r * l.length + j)
      = ((List.replicate r (l.map some)).flatten ++ List.replicate j none,
         repeat_data_source.mk (ListSource.mk l l.length) true (some kk) (kk - 1)) := by
  intro r
  induction r with
  | zero =>
    intro q hq
    have hfix := repeat_data_source.next_done_bound l l.length q kk (le_refl _) (by omega)
    have hq' : kk - 1 = q := by omega
    simp [repeat_data_source.run_of_fixpoint _ hfix, hq']
  | succ r ih =>
    intro q hq
    have hn : (r + 1) * l.length + j = l.length + (r * l.length + j) := by ring
    rw [hn, repeat_data_source.run_add,
      repeat_data_source.run_full_pass l q kk h0 (by omega)]
    simp [ih (q + 1) (by omega), List.replicate_succ, List.append_assoc]

/-- Claim C1: for every repeat count k >= 1 and every inner stage yielding a
finite stream of n >= 1 Values per pass, the repeat combinator's `next`
yields exactly k * n Values, in the order of k successive complete passes
over the inner stream, and every `next` call after that returns empty. -/
theorem repeat_yields_k_times_n_values {α : Type} (l : List α) (kk j : Nat)
    (hk : 1 ≤ kk) (hl : l ≠ []) :
    ((mkRepeat (ListSource.mk l 0) (some kk)).run (kk * l.length + j)).1
      = ((List.replicate kk l).flatten).map some ++ List.replicate j none := by
  have h0 : 0 < l.length := List.length_pos.mpr hl
  obtain ⟨a, t, rfl⟩ : ∃ a t, l = a :: t := by
    cases l with
    | nil => simp at h0
    | cons a t => exact ⟨a, t, rfl⟩
  obtain ⟨k0, rfl⟩ : ∃ k0, kk = k0 + 1 := ⟨kk - 1, by omega⟩
  have hsplit : (k0 + 1) * (a :: t).length + j
      = 1 + (t.length + (k0 * (a :: t).length + j)) := by
    have h1 : (k0 + 1) * (a :: t).length = (a :: t).length + k0 * (a :: t).length := by ring
    simp only [List.length_cons] at h1 ⊢
    omega
  rw [hsplit, repeat_data_source.run_add]
  have hfirst : (mkRepeat (ListSource.mk (a :: t) 0) (some (k0 + 1))).run 1
      = ([some a],
         repeat_data_source.mk (ListSource.mk (a :: t) 1) true (some (k0 + 1)) 0) := by
    simp [repeat_data_source.run, repeat_data_source.next, ListSource.next, mkRepeat]
  rw [hfirst, repeat_data_source.run_add]
  have hrest := repeat_data_source.run_in_pass (a :: t) (some (k0 + 1)) 0 t.length 1
    (by simp [Nat.add_comm])
  rw [hrest]
  have hpasses := repeat_data_source.run_passes (a :: t) (k0 + 1) j h0 k0 0 (by omega)
  rw [hpasses]
  simp [List.replicate_succ, List.map_flatten, List.map_replicate, List.append_assoc]

/-- Witness for C1 at the spec's concrete scenario: inner stream of length 2
repeated 3 times yields the six values of three passes in order, then empty. -/
theorem repeat_yields_k_times_n_values_witness :
    (1 ≤ 3 ∧ ([10, 20] : List Nat) ≠ []) ∧
    ((mkRepeat (ListSource.mk ([10, 20] : List Nat) 0) (some 3)).run
        (3 * List.length [10, 20] + 2)).1
      = ((List.replicate 3 [10, 20]).flatten).map some ++ List.replicate 2 none :=
  ⟨⟨by decide, by decide⟩,
   repeat_yields_k_times_n_values [10, 20] 3 2 (by decide) (by decide)⟩

/-- Claim C2: for every configuration of `num_repeats_` (present or absent),
a combinator whose inner stage yields zero Values on its very first pass
returns empty on the first `next` call and on every call thereafter, and its
state — in particular the pass counter — never changes, so no further pass
over the inner stage is ever started and `next` terminates instead of
looping over empty passes. -/
theorem repeat_empty_inner_permanently_exhausted {α : Type} (p : Nat) (nrep : Option Nat)
    (m : Nat) :
    (mkRepeat (ListSource.mk ([] : List α) p) nrep).run m
      = (List.replicate m none, mkRepeat (ListSource.mk [] p) nrep) := by
  apply repeat_data_source.run_of_fixpoint
  exact repeat_data_source.next_no_data [] p nrep 0 (by simp)

/-- Claim C3: recording the position of any state of the combinator and
reloading the resulting tape into a freshly constructed combinator of the
same configuration (same inner stream, same bound) succeeds, consumes the
whole tape, and restores a state whose entire subsequent `next` sequence is
identical to continuing the original instance, for strict and non-strict
reloads alike. -/
theorem repeat_record_reload_roundtrip {α : Type} (s : repeat_data_source α)
    (strict strict2 : Bool) :
    ∃ s2, (mkRepeat (ListSource.mk s.inner_.data 0) s.num_repeats_).reload_position
        ((s.record_position [] strict).1) strict2 = Except.ok (s2, [])
      ∧ ∀ m, s2.run m = s.run m := by
  rcases s with ⟨⟨d, p⟩, hd, nr, q⟩
  exact ⟨⟨⟨d, p⟩, hd, nr, q⟩, rfl, fun _ => rfl⟩

/-- Claim C5: the combinator reports itself infinite whenever no repeat
bound is set, regardless of the inner stage's own infiniteness; when a bound
is present it reports exactly the inner stage's infiniteness. -/
theorem repeat_is_infinite_reporting :
    (∀ i : Bool, repeat_is_infinite none i = true)
    ∧ (∀ (kk : Nat) (i : Bool), repeat_is_infinite (some kk) i = i) :=
  ⟨fun _ => rfl, fun _ _ => rfl⟩

/-- Counterexample to claim C6: constructing the combinator with a repeat
count of zero does not fail — the constructor declared in the header is
noexcept and performs no validation, so the zero bound is accepted and
stored unchanged in an ordinary, fully formed state. -/
theorem repeat_zero_count_constructor_accepts :
    mkRepeat (ListSource.mk ([10] : List Nat) 0) (some 0)
      = { inner_ := ListSource.mk [10] 0, has_data_ := false,
          num_repeats_ := some 0, repeat_nr_ := 0 } :=
  rfl

/-- Amended claim C6: construction never rejects any `num_repeats` value.
The constructor is noexcept and performs no validation: for every inner
source and every bound, including zero, it returns the state with the bound
stored unchanged, `has_data_ = false` and `repeat_nr_ = 0`; no
ConfigurationError exists at construction time. -/
theorem repeat_constructor_no_validation {α : Type} (inner : ListSource α)
    (nrep : Option Nat) :
    mkRepeat inner nrep
      = { inner_ := inner, has_data_ := false, num_repeats_ := nrep, repeat_nr_ := 0 } :=
  rfl

/-- Claim C9: `reset` restores exactly the state the combinator had
immediately after construction — pass counter 0, has-produced flag false,
inner stage reset to the front — and therefore iteration after a reset
restarts from the beginning, producing the same results as a freshly
constructed combinator of the same configuration. -/
theorem repeat_reset_restores_fresh_state {α : Type} (s : repeat_data_source α) :
    s.reset = mkRepeat (ListSource.mk s.inner_.data 0) s.num_repeats_
    ∧ ∀ m, (s.reset).run m
        = (mkRepeat (ListSource.mk s.inner_.data 0) s.num_repeats_).run m :=
  ⟨rfl, fun _ => rfl⟩

/-- Claim C10: `record_position` is a const operation — for every state,
tape, and strict setting, it leaves every field of the combinator (inner
source, `has_data_`, `num_repeats_`, `repeat_nr_`) unchanged. -/
theorem repeat_record_position_const {α : Type} (s : repeat_data_source α) (t : Tape)
    (strict : Bool) :
    ((s.record_position t strict).2).inner_ = s.inner_
    ∧ ((s.record_position t strict).2).has_data_ = s.has_data_
    ∧ ((s.record_position t strict).2).num_repeats_ = s.num_repeats_
    ∧ ((s.record_position t strict).2).repeat_nr_ = s.repeat_nr_ :=
  ⟨rfl, rfl, rfl, rfl⟩

theorem repeat_data_source.next_of_done {α : Type} (s : repeat_data_source α)
    (h : s.isDone = true) : s.next = (none, s) := by
  rcases s with ⟨⟨d, p⟩, hd, nr, q⟩
  simp only [repeat_data_source.isDone, Bool.and_eq_true, Bool.or_eq_true,
    Bool.not_eq_true', Option.isNone_iff_eq_none] at h
  obtain ⟨h1, h2⟩ := h
  have hin : (ListSource.mk d p).next = (none, ListSource.mk d p) := by
    unfold ListSource.next
    cases hx : d.get? p with
    | none => rfl
    | some v =>
      unfold ListSource.next at h1
      rw [hx] at h1
      simp at h1
  unfold repeat_data_source.next
  rw [hin]
  rcases h2 with hh | hb
  · subst hh
    rfl
  · cases hd with
    | false => rfl
    | true => simp [hb]

theorem repeat_data_source.record_position_snd {α : Type} (s : repeat_data_source α)
    (t : Tape) (strict : Bool) : (s.record_position t strict).2 = s :=
  rfl

theorem repeat_data_source.reload_of_record {α : Type} (s t : repeat_data_source α)
    (b1 b2 : Bool) :
    t.reload_position ((s.record_position [] b1).1) b2
      = Except.ok
          (⟨⟨t.inner_.data, s.inner_.pos⟩, s.has_data_, t.num_repeats_, s.repeat_nr_⟩,
           []) := by
  rcases s with ⟨⟨d, p⟩, hd, nr, q⟩
  rcases t with ⟨⟨d2, p2⟩, hd2, nr2, q2⟩
  rfl

theorem repeat_data_source.next_fields {α : Type} (s : repeat_data_source α) :
    ((s.next).2).num_repeats_ = s.num_repeats_
    ∧ (((s.next).2).repeat_nr_ = s.repeat_nr_
       ∨ (((s.next).2).repeat_nr_ = s.repeat_nr_ + 1
          ∧ boundReached s.num_repeats_ s.repeat_nr_ = false)) := by
  unfold repeat_data_source.next
  rcases hx : s.inner_.next with ⟨v, i1⟩
  cases v with
  | some v => simp [hx]
  | none =>
    by_cases hhd : s.has_data_ = false
    · simp [hx, hhd]
    · by_cases hb : boundReached s.num_repeats_ s.repeat_nr_ = true
      · simp [hx, hhd, hb]
      · rw [Bool.not_eq_true] at hb
        rcases hy : (i1.reset).next with ⟨w, i2⟩
        cases w with
        | some w => simp [hx, hhd, hb, hy]
        | none => simp [hx, hhd, hb, hy]

theorem reachable_num_repeats {α : Type} {l : List α} {nrep : Option Nat}
    {s : repeat_data_source α} (h : Reachable l nrep s) : s.num_repeats_ = nrep := by
  induction h with
  | init => rfl
  | step_next h ih =>
    rename_i s1
    rw [(repeat_data_source.next_fields s1).1]
    exact ih
  | step_reset h ih => simpa [repeat_data_source.reset] using ih
  | step_record h ih => simpa [repeat_data_source.record_position_snd] using ih
  | step_reload hs ht heq ihs iht =>
    rw [repeat_data_source.reload_of_record] at heq
    injection Except.ok.inj heq with h1 h2
    subst h1
    exact iht

/-- Claim C7: for every combinator constructed with a present bound
`num_repeats_ = some k`, the invariant `repeat_nr_ <= k` holds in every
state reachable by any sequence of `next`, `reset`, `record_position` and
`reload_position` calls: no operation ever starts a pass beyond the bound. -/
theorem repeat_pass_bound_invariant {α : Type} (l : List α) (kk : Nat)
    (s : repeat_data_source α) (h : Reachable l (some kk) s) :
    s.repeat_nr_ ≤ kk := by
  induction h with
  | init => exact Nat.zero_le kk
  | step_next h ih =>
    rename_i s1
    have hnum : s1.num_repeats_ = some kk := reachable_num_repeats h
    rcases (repeat_data_source.next_fields s1).2 with heq | ⟨heq, hbf⟩
    · rw [heq]; exact ih
    · rw [heq]
      rw [hnum] at hbf
      have hlt : ¬ (kk ≤ s1.repeat_nr_ + 1) := by
        simpa [boundReached] using hbf
      omega
  | step_reset h ih => exact Nat.zero_le kk
  | step_record h ih =>
    rw [repeat_data_source.record_position_snd]
    exact ih
  | step_reload hs ht heq ihs iht =>
    rw [repeat_data_source.reload_of_record] at heq
    injection Except.ok.inj heq with h1 h2
    subst h1
    exact ihs

/-- Witness for C7: the invariant applied to the freshly constructed state
of a combinator with bound 2. -/
theorem repeat_pass_bound_invariant_witness :
    (mkRepeat (ListSource.mk ([10] : List Nat) 0) (some 2)).repeat_nr_ ≤ 2 :=
  repeat_pass_bound_invariant [10] 2 _ Reachable.init

/-- Claim C8: once the combinator is permanently exhausted (DONE), every
further `next` call returns empty and leaves the whole state — pass
counter, has-produced flag and inner stage — unchanged, for any number of
calls. -/
theorem repeat_done_next_idempotent {α : Type} (s : repeat_data_source α)
    (h : s.isDone = true) (m : Nat) :
    s.run m = (List.replicate m none, s) :=
  repeat_data_source.run_of_fixpoint s (repeat_data_source.next_of_done s h) m

/-- Witness for C8: a combinator that exhausted its single pass over a
one-element stream is DONE, and three further calls all return empty with
the state unchanged. -/
theorem repeat_done_next_idempotent_witness :
    (repeat_data_source.mk (ListSource.mk ([10] : List Nat) 1) true (some 1) 0).isDone
      = true
    ∧ (repeat_data_source.mk (ListSource.mk ([10] : List Nat) 1) true (some 1) 0).run 3
      = (List.replicate 3 none,
         repeat_data_source.mk (ListSource.mk ([10] : List Nat) 1) true (some 1) 0) :=
  ⟨by decide, repeat_done_next_idempotent _ (by decide) 3⟩

/-- Claim C4: reloading a tape that does not carry the slots
`record_position` would have written for this stage shape (pass counter,
has-produced flag, inner cursor) with `strict = true` fails with the
checkpoint-mismatch error — and, the reload being all-or-nothing, no state
is produced at all.  The error is raised only in strict mode and only on
such a malformed tape: a well-formed tape reloads successfully in strict
mode, and a non-strict reload never fails on any tape. -/
theorem repeat_reload_strict_mismatch {α : Type} (s : repeat_data_source α) (t : Tape) :
    (tapeWellFormed t = false →
      s.reload_position t true = Except.error CkptErr.mismatch)
    ∧ (tapeWellFormed t = true → ∃ r, s.reload_position t true = Except.ok r)
    ∧ (∃ r, s.reload_position t false = Except.ok r) := by
  rcases t with _ | ⟨a | b, _ | ⟨c | b2, _ | ⟨c2 | b3, t3⟩⟩⟩ <;>
    refine ⟨fun h => ?_, fun h => ?_, ⟨_, rfl⟩⟩ <;>
    first
      | rfl
      | exact ⟨_, rfl⟩
      | simp [tapeWellFormed] at h

/-- Witness for C4: on the empty tape (which is missing every expected
slot) the strict reload of a freshly constructed combinator fails with the
mismatch error, while the non-strict reload still succeeds. -/
theorem repeat_reload_strict_mismatch_witness :
    (tapeWellFormed [] = false
      ∧ (mkRepeat (ListSource.mk ([10] : List Nat) 0) (some 1)).reload_position [] true
          = Except.error CkptErr.mismatch)
    ∧ ∃ r, (mkRepeat (ListSource.mk ([10] : List Nat) 0) (some 1)).reload_position [] false
        = Except.ok r :=
  ⟨⟨by decide,
    (repeat_reload_strict_mismatch (mkRepeat (ListSource.mk ([10] : List Nat) 0) (some 1))
      []).1 (by decide)⟩,
   (repeat_reload_strict_mismatch (mkRepeat (ListSource.mk ([10] : List Nat) 0) (some 1))
      []).2.2⟩

end Fairseq2n
